import Mathlib

/-!
Verification of the cartographer-cli pipeline: an embedding of the elevation
raster model, the terrain tile mesher's grid/seam construction and vertex
quantization, and the vector feature synthesizer (buildings and roads).

Modelling conventions:
* `f32`/`f64` values are embedded as exact rationals (`ℚ`).  Every operation
  the theorems below touch is either a copy, a comparison, a sum/product of
  small dyadic values, a division by a power of two, or a clamp, all of which
  are exact in binary floating point at the inputs considered, so the rational
  model agrees with the float semantics there.  The one genuinely non-finite
  corner, division by a zero `range_z`, is modelled explicitly (`quantZ`).
* Rust saturating float-to-integer casts (`as u16`, `as i8`, `as u32`)
  truncate toward zero and clamp to the target range; NaN casts to 0.
* Rust panics (`unwrap`, slice indexing, `assert!`, explicit `panic!`)
  are modelled as `Option.none`.
* Real-valued trigonometry (road miter correction) is embedded over `ℝ`
  with Mathlib's `Real.cos` / `Real.arccos`; these are necessarily
  noncomputable, and the corresponding facts are proved symbolically.
-/

namespace Cartographer

/-- One raster chunk (`Tile` in region.rs): row-major samples plus its
dimensions.  Full interior chunks are 512×512; the raster's last row/column
holds smaller chunks. -/
structure Tile where
  data : List ℚ
  width : ℕ
  height : ℕ
deriving DecidableEq, Inhabited

/-- `Tile::get` (region.rs line 27): `self.data[y * self.width + x]`.
In-bounds use is established separately; out-of-bounds reads default to 0
here where the claims only exercise in-bounds indices. -/
def Tile.get (t : Tile) (x y : ℕ) : ℚ :=
  t.data.getD (y * t.width + x) 0

/-- `TileNeighbors` (region.rs lines 32-36). -/
structure TileNeighbors where
  next_x : Option Tile
  next_y : Option Tile
  corner : Option Tile

/-- Neighbor construction in `Region::process_elevation` (region.rs lines
92-96): right neighbor iff the tile is 512 wide, below neighbor iff 512
tall, corner iff both.  `Arc` sharing is dropped (tiles are immutable). -/
def neighborsAt (tiles : List Tile) (index : ℕ) : TileNeighbors :=
  let t := tiles.getD index default
  { next_x := if t.width = 512 then tiles[index + 1]? else none
    next_y := if t.height = 512 then tiles[index + 20]? else none
    corner := if t.width = 512 ∧ t.height = 512 then tiles[index + 21]? else none }

/-- The effective grid dimension of `build_terrain_mesh` (elevation.rs lines
45-46): a natural size of exactly 512 is extended by one. -/
def fixedDim (d : ℕ) : ℕ :=
  if d = 512 then d + 1 else d

/-- The height closure passed to `make_grid` (elevation.rs lines 48-62).
Faithful to the source, the first branch tests `x >= width && y >= width`
(both against `width`); for the square tiles the claims concern this agrees
with a height test.  A missing neighbor (`unwrap` panic) yields `none`. -/
def meshHeight (data : List ℚ) (width height : ℕ) (nb : TileNeighbors)
    (x y : ℕ) : Option ℚ :=
  if width ≤ x ∧ width ≤ y then nb.corner.map (fun t => t.get 0 0)
  else if width ≤ x then nb.next_x.map (fun t => t.get 0 y)
  else if height ≤ y then nb.next_y.map (fun t => t.get x 0)
  else some (data.getD (y * width + x) 0)

/-- Truncation toward zero, the rounding mode of Rust float-to-integer
`as` casts. -/
def truncQ (q : ℚ) : ℤ :=
  if 0 ≤ q then ⌊q⌋ else ⌈q⌉

/-- Rust `as u16` on a finite float: truncate toward zero, saturate to
`[0, 65535]`. -/
def as_u16 (q : ℚ) : ℕ :=
  (min 65535 (max 0 (truncQ q))).toNat

/-- Rust `as i8` on a finite float: truncate toward zero, saturate to
`[-128, 127]`. -/
def as_i8 (q : ℚ) : ℤ :=
  max (-128) (min 127 (truncQ q))

/-- The z quantization `((pos.z - min_z) / range_z * 65535.0) as u16`
(elevation.rs lines 99, 102).  The zero-divisor branch spells out the IEEE
behaviour the source relies on: `0.0/0.0` is NaN and casts to 0, a positive
numerator gives `+Inf` (saturates to 65535), a negative one `-Inf` (to 0). -/
def quantZ (z minz rangez : ℚ) : ℕ :=
  if rangez = 0 then
    if z = minz then 0
    else if minz < z then 65535
    else 0
  else as_u16 ((z - minz) / rangez * 65535)

/-- One encoded vertex of the tile-mesh buffer: the three `u16` position
fields and the three `i8` normal fields (elevation.rs lines 95-112). -/
structure EncVertex where
  qx : ℕ
  qy : ℕ
  qz : ℕ
  nx : ℤ
  ny : ℤ
  nz : ℤ
deriving DecidableEq

/-- The per-vertex encoding of `build_terrain_mesh` (elevation.rs lines
95-112): positions quantized as `pos / 512 * 65535` cast to `u16`, z against
`min_z`/`range_z`, and the normal components as `component * 127` cast
to `i8`. -/
def encodeVertex (minz rangez : ℚ) (p : ℚ × ℚ × ℚ) (n : ℚ × ℚ × ℚ) : EncVertex :=
  { qx := as_u16 (p.1 / 512 * 65535)
    qy := as_u16 (p.2.1 / 512 * 65535)
    qz := quantZ p.2.2 minz rangez
    nx := as_i8 (n.1 * 127)
    ny := as_i8 (n.2.1 * 127)
    nz := as_i8 (n.2.2 * 127) }

/-- Minimum vertex elevation (elevation.rs lines 76-83).  The source folds
`min` starting from `+Inf`; over a nonempty list that equals folding from
the first element, which is what this computable version does. -/
def minZ : List ℚ → ℚ
  | [] => 0
  | z :: rest => rest.foldl min z

/-- Maximum vertex elevation (elevation.rs lines 77-82), folded from `-Inf`
in the source; see `minZ`. -/
def maxZ : List ℚ → ℚ
  | [] => 0
  | z :: rest => rest.foldl max z

/-- `range_z = max_z - min_z` (elevation.rs line 84). -/
def rangeZ (zs : List ℚ) : ℚ :=
  maxZ zs - minZ zs

/-- The encoded tile-mesh payload: header `(min_z, range_z, vertex_count)`,
then the quantized vertices, then the face index triples. -/
structure TerrainOut where
  min_z : ℚ
  range_z : ℚ
  vertex_count : ℕ
  verts : List EncVertex
  faces : List (ℕ × ℕ × ℕ)
deriving DecidableEq

/-- The post-decimation half of `build_terrain_mesh` (elevation.rs lines
69-125), abstracted over the decimated mesh: a vertex list (position,
normal) and a face list of compact indices (the source's `HashMap` remap
assigns 0-based indices in iteration order, so faces arrive here already
remapped).  The `assert!(count < 60_000)` guards on lines 69-70 are the
`none` branch; faces are written in `(b, a, c)` order (lines 121-123). -/
def encodeTerrain (vs : List ((ℚ × ℚ × ℚ) × (ℚ × ℚ × ℚ)))
    (fs : List (ℕ × ℕ × ℕ)) : Option TerrainOut :=
  if vs.length < 60000 ∧ fs.length < 60000 then
    let zs := vs.map (fun v => v.1.2.2)
    let mz := minZ zs
    let rz := rangeZ zs
    some { min_z := mz
           range_z := rz
           vertex_count := vs.length
           verts := vs.map (fun v => encodeVertex mz rz v.1 v.2)
           faces := fs.map (fun f => (f.2.1, f.1, f.2.2)) }
  else none

/-- The shoelace-style sum of `is_ccw` (main.rs lines 211-219):
`Σ (x2 - x1) * (y2 + y1)` over the cyclically closed point list. -/
def shoelaceSum (points : List (ℚ × ℚ)) : ℚ :=
  (List.range points.length).foldl
    (fun s i =>
      let p1 := points.getD i (0, 0)
      let p2 := points.getD ((i + 1) % points.length) (0, 0)
      s + (p2.1 - p1.1) * (p2.2 + p1.2)) 0

/-- `is_ccw` (main.rs lines 211-219): the sign test `sum < 0.0`. -/
def is_ccw (points : List (ℚ × ℚ)) : Bool :=
  decide (shoelaceSum points < 0)

/-- The winding normalization applied to a building footprint (main.rs
lines 257-259): `if is_ccw(&path) { path.reverse(); }`. -/
def fixWinding (path : List (ℚ × ℚ)) : List (ℚ × ℚ) :=
  if is_ccw path then path.reverse else path

/-- `BuildingKind` (main.rs lines 53-62), a `repr(u8)` enum. -/
inductive BuildingKind where
  | House
  | Tower
  | Commercial
  | Industrial
  | Parking
  | School
  | Hospital
deriving DecidableEq

/-- The `repr(u8)` discriminant of `BuildingKind` (declaration order,
starting at 0), i.e. the byte written by `buffer.write_byte(kind as u8)`
(main.rs line 279). -/
def BuildingKind.toByte : BuildingKind → ℕ
  | .House => 0
  | .Tower => 1
  | .Commercial => 2
  | .Industrial => 3
  | .Parking => 4
  | .School => 5
  | .Hospital => 6

/-- `building_infer_kind` (main.rs lines 94-102); the `way` parameter is
unused in the source and dropped here. -/
def building_infer_kind (area height : ℚ) : BuildingKind :=
  if 10 < height then .Tower
  else if 500 < area then .Commercial
  else .House

/-- `building_height` (main.rs lines 77-92), abstracted over the numeric
parser (`str::parse::<f32>` in the source): an absent or unparseable
`height` tag falls through to `building:levels`, and that to the default
3.0. -/
def building_height (parse : String → Option ℚ)
    (heightTag levelsTag : Option String) : ℚ :=
  match heightTag.bind parse with
  | some h => h
  | none =>
    match levelsTag.bind parse with
    | some levels => levels * 3
    | none => 3

/-- The height bump for non-houses (main.rs lines 266-271):
`Commercial | Industrial => height = height.max(6.0)`. -/
def bumpHeight (kind : BuildingKind) (h : ℚ) : ℚ :=
  match kind with
  | .Commercial => max h 6
  | .Industrial => max h 6
  | _ => h

/-- The height value actually written for a building record (main.rs lines
261-278): resolve via `building_height`, infer the kind, apply the
Commercial/Industrial floor, then `write_float(height)`. -/
def encoded_building_height (parse : String → Option ℚ)
    (heightTag levelsTag : Option String) (area : ℚ) : ℚ :=
  let h := building_height parse heightTag levelsTag
  bumpHeight (building_infer_kind area h) h

/-- `path_area` (main.rs lines 104-123): the bounding-box area of the
footprint, 0 for fewer than three points. -/
def path_area (path : List (ℚ × ℚ)) : ℚ :=
  match path with
  | [] => 0
  | _ :: [] => 0
  | _ :: _ :: [] => 0
  | p :: rest =>
    let xmin := (rest.map Prod.fst).foldl min p.1
    let xmax := (rest.map Prod.fst).foldl max p.1
    let ymin := (rest.map Prod.snd).foldl min p.2
    let ymax := (rest.map Prod.snd).foldl max p.2
    (xmax - xmin) * (ymax - ymin)

/-- A concrete tag value used to instantiate parser-dependent theorems. -/
def tagOne : String :=
  "1"

/-- A concrete tag value used to instantiate parser-dependent theorems. -/
def tagTwelve : String :=
  "12"

/-- A toy numeric tag parser: reads `tagOne` as 1 and `tagTwelve` as 12,
rejecting everything else (an unparseable value). -/
def toyParse : String → Option ℚ :=
  fun s => if s = tagOne then some 1 else if s = tagTwelve then some 12 else none

/-- Region chunk-grid constants (region.rs lines 45, 146-147):
`REGION_SIZE = 10012`, chunk size 512, 20×20 chunks. -/
def REGION_SIZE : ℕ :=
  10012

/-- Modelled from the spec: the GeoTIFF decoder's per-chunk data dimensions
(the decoder itself is an out-of-scope collaborator).  The raster is
asserted to be 10012×10012 in 512×512 chunks (region.rs lines 54-57), so
chunk column/row `c` has extent `min 512 (10012 - 512*c)`: 512 for
`c ≤ 18` and 284 for `c = 19`, matching the spec's "Width/height equal 512
for interior tiles, smaller at the grid's last row/column". -/
def tileDim (c : ℕ) : ℕ :=
  min 512 (REGION_SIZE - 512 * c)

/-- The elevation raster model (`Region` in region.rs), reduced to its tile
grid; the georeferencing fields play no part in the claims. -/
structure Region where
  tiles : List Tile

/-- The clamp in `Region::get_elevation` (region.rs lines 143-144):
`x.clamp(0.01, REGION_SIZE as f32 - 0.01)`. -/
def clampCoord (x : ℚ) : ℚ :=
  min ((REGION_SIZE : ℚ) - 1 / 100) (max (1 / 100) x)

/-- Chunk coordinate (region.rs lines 148-149):
`(x / chunk_size).floor() as i32` after clamping. -/
def chunkCoord (x : ℚ) : ℤ :=
  ⌊clampCoord x / 512⌋

/-- Rust float `%`: `a - b * trunc(a / b)`. -/
def fmodQ (a b : ℚ) : ℚ :=
  a - b * truncQ (a / b)

/-- Local pixel coordinate within a chunk (region.rs lines 157-158):
`(x % chunk_size) as u32` after clamping. -/
def localCoord (x : ℚ) : ℕ :=
  (truncQ (fmodQ (clampCoord x) 512)).toNat

/-- `Region::get_elevation` (region.rs lines 142-161).  The `panic!("bad
coord")` branch and the two panicking slice indexings are `none`. -/
def Region.get_elevation (r : Region) (x y : ℚ) : Option ℚ :=
  let cx := chunkCoord x
  let cy := chunkCoord y
  if cx < 0 ∨ cy < 0 ∨ 20 ≤ cx ∨ 20 ≤ cy then none
  else
    (r.tiles[(cy * 20 + cx).toNat]?).bind
      (fun tile => tile.data[tile.width * localCoord y + localCoord x]?)

/-- The region invariant established by `Region::new` together with the
decoder contract: 400 tiles, the tile at grid position `(i % 20, i / 20)`
has the decoder's chunk dimensions, and its sample buffer is exactly
width×height row-major samples. -/
def regionWF (r : Region) : Prop :=
  r.tiles.length = 400 ∧
  ∀ i, (h : i < r.tiles.length) →
    r.tiles[i].width = tileDim (i % 20) ∧
    r.tiles[i].height = tileDim (i / 20) ∧
    r.tiles[i].data.length = r.tiles[i].width * r.tiles[i].height

/-- A concrete well-formed tile for instantiating `regionWF`. -/
def sampleTile (cx cy : ℕ) : Tile :=
  { data := List.replicate (tileDim cx * tileDim cy) 0
    width := tileDim cx
    height := tileDim cy }

/-- A concrete well-formed region (all samples 0). -/
def sampleRegion : Region :=
  { tiles := (List.range 400).map (fun i => sampleTile (i % 20) (i / 20)) }

/-- Modelled from the spec: the server-mode Elevation Cache, which is absent
from src/ (only the batch pipeline is present).  Per the spec it is an LRU
over chunk indices with capacity 11: a hit moves the entry to the back
(most recently used); a miss appends, evicting the front (least recently
touched) entry when the cache is full. -/
def cacheTouch (c : List ℕ) (k : ℕ) : List ℕ :=
  if k ∈ c then c.erase k ++ [k]
  else if c.length < 11 then c ++ [k]
  else c.drop 1 ++ [k]

/-- Querying the Elevation Cache for a sequence of chunk indices, starting
empty. -/
def cacheRun (ks : List ℕ) : List ℕ :=
  ks.foldl cacheTouch []

/-- Planar vector difference (`next.center - node.center` in main.rs). -/
def vsub (a b : ℝ × ℝ) : ℝ × ℝ :=
  (a.1 - b.1, a.2 - b.2)

/-- Euclidean norm of a planar vector (nalgebra `norm`).  Real-valued
trigonometry and square roots are noncomputable in Lean; the road-width
facts below are proved symbolically. -/
noncomputable def norm2 (v : ℝ × ℝ) : ℝ :=
  Real.sqrt (v.1 ^ 2 + v.2 ^ 2)

/-- nalgebra `normalize`: divide by the norm. -/
noncomputable def normalize2 (v : ℝ × ℝ) : ℝ × ℝ :=
  (v.1 / norm2 v, v.2 / norm2 v)

/-- nalgebra `angle`: `acos` of the cosine `dot / (|a| |b|)`, which nalgebra
clamps into `[-1, 1]`; Mathlib's `Real.arccos` agrees because it is constant
outside that interval. -/
noncomputable def vangle (a b : ℝ × ℝ) : ℝ :=
  Real.arccos ((a.1 * b.1 + a.2 * b.2) / (norm2 a * norm2 b))

/-- The incoming direction at road node `i` (main.rs lines 349-354):
present iff a previous node exists. -/
noncomputable def dir1At (p : List (ℝ × ℝ)) (i : ℕ) : Option (ℝ × ℝ) :=
  if 0 < i then some (normalize2 (vsub (p.getD i (0, 0)) (p.getD (i - 1) (0, 0))))
  else none

/-- The outgoing direction at road node `i` (main.rs lines 355-360):
present iff a next node exists. -/
noncomputable def dir2At (p : List (ℝ × ℝ)) (i : ℕ) : Option (ℝ × ℝ) :=
  if i + 1 < p.length then some (normalize2 (vsub (p.getD (i + 1) (0, 0)) (p.getD i (0, 0))))
  else none

/-- The miter width multiplier at road node `i` (main.rs lines 369-375):
1.0 unless both neighbors exist, in which case
`1 / cos(min(angle, 1.57) / 2)` — note the clamp constant is the literal
`1.57`, not `π/2`. -/
noncomputable def widthMulAt (p : List (ℝ × ℝ)) (i : ℕ) : ℝ :=
  match dir1At p i, dir2At p i with
  | some a, some b => 1 / Real.cos (min (vangle a b) 1.57 / 2)
  | _, _ => 1

/-- A road path forming a 90-degree bend at its middle node. -/
def bendPath : List (ℝ × ℝ) :=
  [(0, 0), (1, 0), (1, 1)]

/-- A full 512×512 tile with default (all-zero) samples, for instantiating
the seam theorems. -/
def fullTile : Tile :=
  { data := [], width := 512, height := 512 }

/-- A 22-tile row-major prefix of a region grid, enough to contain a tile,
its right neighbor (index+1), its below neighbor (index+20) and its corner
neighbor (index+21). -/
def tiles22 : List Tile :=
  List.replicate 22 fullTile

/-! ### Helper lemmas -/

/-- `building_infer_kind` only ever produces House, Tower or Commercial. -/
lemma infer_kind_cases (area height : ℚ) :
    building_infer_kind area height = .House ∨
    building_infer_kind area height = .Tower ∨
    building_infer_kind area height = .Commercial := by
  unfold building_infer_kind
  split_ifs <;> simp

/-- `truncQ` is `Int.floor` on nonnegative inputs. -/
lemma truncQ_of_nonneg {q : ℚ} (h : 0 ≤ q) : truncQ q = ⌊q⌋ :=
  if_pos h

/-- The `u16` saturating cast does not clamp inside `[0, 65535]`. -/
lemma as_u16_in_range {q : ℚ} (h0 : 0 ≤ q) (h1 : q ≤ 65535) :
    as_u16 q = ⌊q⌋.toNat := by
  unfold as_u16
  have hf1 : ⌊q⌋ ≤ 65535 := by
    calc ⌊q⌋ ≤ ⌊(65535 : ℚ)⌋ := Int.floor_mono h1
    _ = 65535 := by norm_num
  rw [truncQ_of_nonneg h0, max_eq_right (Int.floor_nonneg.mpr h0), min_eq_right hf1]

/-- The `i8` saturating cast does not clamp inside `[-127, 127]`. -/
lemma as_i8_in_range {q : ℚ} (h0 : -127 ≤ q) (h1 : q ≤ 127) :
    as_i8 q = truncQ q := by
  unfold as_i8
  have ht1 : truncQ q ≤ 127 := by
    unfold truncQ
    split_ifs with h
    · calc ⌊q⌋ ≤ ⌊(127 : ℚ)⌋ := Int.floor_mono h1
      _ = 127 := by norm_num
    · calc ⌈q⌉ ≤ ⌈(127 : ℚ)⌉ := Int.ceil_mono h1
      _ = 127 := by norm_num
  have ht0 : -128 ≤ truncQ q := by
    unfold truncQ
    split_ifs with h
    · have : (0 : ℤ) ≤ ⌊q⌋ := Int.floor_nonneg.mpr h
      omega
    · have hcq : (-127 : ℚ) ≤ (⌈q⌉ : ℚ) := le_trans h0 (Int.le_ceil q)
      have : (-127 : ℤ) ≤ ⌈q⌉ := by exact_mod_cast hcq
      omega
  rw [min_eq_right ht1, max_eq_right ht0]

/-- A value in `[0, 1]` scaled by 65535 stays in `[0, 65535]`. -/
lemma quant_unit_range {u : ℚ} (h0 : 0 ≤ u) (h1 : u ≤ 1) :
    0 ≤ u * 65535 ∧ u * 65535 ≤ 65535 := by
  constructor
  · exact mul_nonneg h0 (by norm_num)
  · calc u * 65535 ≤ 1 * 65535 := mul_le_mul_of_nonneg_right h1 (by norm_num)
    _ = 65535 := one_mul _

/-- Folding `min` over a constant list is that constant. -/
lemma foldl_min_all {c : ℚ} :
    ∀ (l : List ℚ) (z : ℚ), (∀ a ∈ l, a = c) → z = c → l.foldl min z = c
  | [], _, _, hz => hz
  | a :: r, z, hall, hz => by
    have ha : a = c := hall a (List.mem_cons_self a r)
    have hm : min z a = c := by rw [hz, ha, min_self]
    exact foldl_min_all r (min z a) (fun b hb => hall b (List.mem_cons_of_mem a hb)) hm

/-- Folding `max` over a constant list is that constant. -/
lemma foldl_max_all {c : ℚ} :
    ∀ (l : List ℚ) (z : ℚ), (∀ a ∈ l, a = c) → z = c → l.foldl max z = c
  | [], _, _, hz => hz
  | a :: r, z, hall, hz => by
    have ha : a = c := hall a (List.mem_cons_self a r)
    have hm : max z a = c := by rw [hz, ha, max_self]
    exact foldl_max_all r (max z a) (fun b hb => hall b (List.mem_cons_of_mem a hb)) hm

/-- `minZ` of a nonempty constant list. -/
lemma minZ_all {zs : List ℚ} {c : ℚ} (hne : zs ≠ []) (hall : ∀ z ∈ zs, z = c) :
    minZ zs = c := by
  cases zs with
  | nil => exact absurd rfl hne
  | cons z r =>
    exact foldl_min_all r z (fun b hb => hall b (List.mem_cons_of_mem z hb))
      (hall z (List.mem_cons_self z r))

/-- `maxZ` of a nonempty constant list. -/
lemma maxZ_all {zs : List ℚ} {c : ℚ} (hne : zs ≠ []) (hall : ∀ z ∈ zs, z = c) :
    maxZ zs = c := by
  cases zs with
  | nil => exact absurd rfl hne
  | cons z r =>
    exact foldl_max_all r z (fun b hb => hall b (List.mem_cons_of_mem z hb))
      (hall z (List.mem_cons_self z r))

/-- The clamp of `get_elevation` lands in `[0.01, 10012 - 0.01]`. -/
lemma clampCoord_bounds (x : ℚ) :
    1 / 100 ≤ clampCoord x ∧ clampCoord x ≤ (REGION_SIZE : ℚ) - 1 / 100 := by
  unfold clampCoord
  refine ⟨le_min ?_ (le_max_left _ _), min_le_left _ _⟩
  norm_num [REGION_SIZE]

/-- After clamping, the chunk coordinate is in `[0, 20)`. -/
lemma chunkCoord_bounds (x : ℚ) : 0 ≤ chunkCoord x ∧ chunkCoord x < 20 := by
  obtain ⟨h1, h2⟩ := clampCoord_bounds x
  unfold chunkCoord
  constructor
  · exact Int.floor_nonneg.mpr (div_nonneg (by linarith) (by norm_num))
  · rw [Int.floor_lt]
    rw [div_lt_iff (by norm_num : (0 : ℚ) < 512)]
    push_cast
    norm_num [REGION_SIZE] at h2
    linarith

/-- After clamping, the local pixel coordinate lies inside the chunk the
decoder supplies at that grid column: below 512 everywhere, and below 284
in the last (284-wide) column. -/
lemma localCoord_lt (x : ℚ) : localCoord x < tileDim (chunkCoord x).toNat := by
  obtain ⟨h1, h2⟩ := clampCoord_bounds x
  set c := clampCoord x with hcdef
  have hcc : chunkCoord x = ⌊c / 512⌋ := rfl
  have hc0 : (0 : ℚ) ≤ c := by linarith
  have hdiv0 : (0 : ℚ) ≤ c / 512 := div_nonneg hc0 (by norm_num)
  have hfl : ((⌊c / 512⌋ : ℤ) : ℚ) ≤ c / 512 := Int.floor_le _
  have hfl1 : c / 512 < ((⌊c / 512⌋ : ℤ) : ℚ) + 1 := Int.lt_floor_add_one _
  have hm : fmodQ c 512 = c - 512 * ((⌊c / 512⌋ : ℤ) : ℚ) := by
    unfold fmodQ
    rw [truncQ_of_nonneg hdiv0]
  have hm0 : 0 ≤ fmodQ c 512 := by
    rw [hm]
    have hmul : 512 * ((⌊c / 512⌋ : ℤ) : ℚ) ≤ 512 * (c / 512) :=
      mul_le_mul_of_nonneg_left hfl (by norm_num)
    have hcancel : (512 : ℚ) * (c / 512) = c := by ring
    linarith
  have hm512 : fmodQ c 512 < 512 := by
    rw [hm]
    have hmul : 512 * (c / 512) < 512 * (((⌊c / 512⌋ : ℤ) : ℚ) + 1) :=
      mul_lt_mul_of_pos_left hfl1 (by norm_num)
    have hcancel : (512 : ℚ) * (c / 512) = c := by ring
    linarith
  have hloc : localCoord x = (⌊fmodQ c 512⌋).toNat := by
    unfold localCoord
    rw [truncQ_of_nonneg hm0]
  have hfloor512 : ⌊fmodQ c 512⌋ < 512 := Int.floor_lt.mpr (by exact_mod_cast hm512)
  have hfloor0 : 0 ≤ ⌊fmodQ c 512⌋ := Int.floor_nonneg.mpr hm0
  obtain ⟨hcx0, hcx20⟩ := chunkCoord_bounds x
  by_cases h19 : chunkCoord x = 19
  · have hfq : ⌊c / 512⌋ = 19 := by rw [← hcc]; exact h19
    have h19q : ((19 : ℤ) : ℚ) ≤ c / 512 := by
      rw [← hfq]
      exact hfl
    have h9728 : (9728 : ℚ) ≤ c := by
      have := (le_div_iff (show (0 : ℚ) < 512 by norm_num)).mp (by push_cast at h19q ⊢; exact h19q)
      linarith
    have hm284 : fmodQ c 512 < 284 := by
      rw [hm, hfq]
      push_cast
      norm_num [REGION_SIZE] at h2
      linarith
    have hfloor284 : ⌊fmodQ c 512⌋ < 284 := Int.floor_lt.mpr (by exact_mod_cast hm284)
    have htd : tileDim (chunkCoord x).toNat = 284 := by
      rw [h19]
      decide
    rw [htd]
    omega
  · have hle18 : (chunkCoord x).toNat ≤ 18 := by omega
    have htd : tileDim (chunkCoord x).toNat = 512 := by
      unfold tileDim REGION_SIZE
      omega
    rw [htd]
    omega

/-- Normalizing the unit x vector is the identity. -/
lemma normalize2_ex : normalize2 ((1 : ℝ), (0 : ℝ)) = (1, 0) := by
  unfold normalize2 norm2
  norm_num

/-- Normalizing the unit y vector is the identity. -/
lemma normalize2_ey : normalize2 ((0 : ℝ), (1 : ℝ)) = (0, 1) := by
  unfold normalize2 norm2
  norm_num

/-- The angle between the unit x and unit y vectors is a right angle. -/
lemma vangle_ex_ey : vangle ((1 : ℝ), (0 : ℝ)) (0, 1) = Real.pi / 2 := by
  unfold vangle norm2
  norm_num [Real.arccos_zero]

/-- The incoming direction at the bend of `bendPath`. -/
lemma dir_bend_1 : dir1At bendPath 1 = some (1, 0) := by
  unfold dir1At
  rw [if_pos (by norm_num : (0 : ℕ) < 1)]
  have h1 : bendPath.getD 1 (0, 0) = ((1 : ℝ), (0 : ℝ)) := rfl
  have h0 : bendPath.getD (1 - 1) (0, 0) = ((0 : ℝ), (0 : ℝ)) := rfl
  rw [h1, h0, show vsub ((1 : ℝ), (0 : ℝ)) (0, 0) = (1, 0) by unfold vsub; norm_num,
    normalize2_ex]

/-- The outgoing direction at the bend of `bendPath`. -/
lemma dir_bend_2 : dir2At bendPath 1 = some (0, 1) := by
  unfold dir2At
  rw [if_pos (by norm_num [bendPath] : 1 + 1 < bendPath.length)]
  have h2 : bendPath.getD (1 + 1) (0, 0) = ((1 : ℝ), (1 : ℝ)) := rfl
  have h1 : bendPath.getD 1 (0, 0) = ((1 : ℝ), (0 : ℝ)) := rfl
  rw [h2, h1, show vsub ((1 : ℝ), (1 : ℝ)) (1, 0) = (0, 1) by unfold vsub; norm_num,
    normalize2_ey]

/-- The code's width multiplier at the 90-degree bend: the angle `π/2`
is clamped to the literal `1.57`. -/
lemma widthMul_bend : widthMulAt bendPath 1 = 1 / Real.cos (1.57 / 2) := by
  unfold widthMulAt
  rw [dir_bend_1, dir_bend_2]
  show 1 / Real.cos (min (vangle (1, 0) (0, 1)) 1.57 / 2) = 1 / Real.cos (1.57 / 2)
  rw [vangle_ex_ey]
  have hle : (1.57 : ℝ) ≤ Real.pi / 2 := by
    have := Real.pi_gt_3141592
    linarith
  rw [min_eq_right hle]

/-! ### Claim theorems -/

/-- Claim C4, counterexample: the footprint `[(0,0),(0,1),(1,0)]` is
clockwise by the shoelace-sum sign test (sum = 1 > 0, so `is_ccw` is false),
yet the code writes it unchanged rather than reversing it to CCW. -/
theorem winding_cw_unchanged_cex :
    shoelaceSum [((0 : ℚ), (0 : ℚ)), (0, 1), (1, 0)] = 1 ∧
    is_ccw [((0 : ℚ), (0 : ℚ)), (0, 1), (1, 0)] = false ∧
    fixWinding [((0 : ℚ), (0 : ℚ)), (0, 1), (1, 0)] = [((0 : ℚ), (0 : ℚ)), (0, 1), (1, 0)] ∧
    [((0 : ℚ), (0 : ℚ)), (0, 1), (1, 0)] ≠ ([((0 : ℚ), (0 : ℚ)), (0, 1), (1, 0)]).reverse := by
  have hs : shoelaceSum [((0 : ℚ), (0 : ℚ)), (0, 1), (1, 0)] = 1 := by
    norm_num [shoelaceSum, List.range_succ]
  have hc : is_ccw [((0 : ℚ), (0 : ℚ)), (0, 1), (1, 0)] = false := by
    norm_num [is_ccw, shoelaceSum, List.range_succ]
  refine ⟨hs, hc, ?_, by norm_num⟩
  unfold fixWinding
  rw [hc]
  simp

/-- Claim C4, amended: the winding normalization reverses a footprint
exactly when the shoelace-sum sign test reports it counter-clockwise
(`sum < 0`), so the written footprint is in clockwise order; a footprint
already clockwise (or degenerate, `sum = 0`) is written unchanged.  Either
way the written footprint is a permutation of the input points. -/
theorem winding_reversal_rule (path : List (ℚ × ℚ)) :
    (is_ccw path = true → fixWinding path = path.reverse) ∧
    (is_ccw path = false → fixWinding path = path) ∧
    (fixWinding path).Perm path := by
  refine ⟨fun h => ?_, fun h => ?_, ?_⟩
  · simp [fixWinding, h]
  · simp [fixWinding, h]
  · unfold fixWinding
    split
    · exact List.reverse_perm path
    · exact List.Perm.refl path

/-- Claim C4, witness: a CCW triangle is reversed by the winding
normalization. -/
theorem winding_reversal_rule_inst :
    fixWinding [((0 : ℚ), (0 : ℚ)), (1, 0), (0, 1)] =
      ([((0 : ℚ), (0 : ℚ)), (1, 0), (0, 1)]).reverse :=
  (winding_reversal_rule [((0 : ℚ), (0 : ℚ)), (1, 0), (0, 1)]).1
    (by norm_num [is_ccw, shoelaceSum, List.range_succ])

/-- Claim C10: the inferred building kind byte is always 0 (House),
1 (Tower) or 2 (Commercial), with Tower iff height > 10, Commercial iff
height ≤ 10 and bounding-box area > 500, House otherwise; Industrial,
Parking, School and Hospital are never produced, so the 6.0 height floor
(`bumpHeight`) only ever changes the height of Commercial buildings. -/
theorem infer_kind_range (area height : ℚ) :
    ((building_infer_kind area height).toByte = 0 ∨
     (building_infer_kind area height).toByte = 1 ∨
     (building_infer_kind area height).toByte = 2) ∧
    (building_infer_kind area height = .Tower ↔ 10 < height) ∧
    (building_infer_kind area height = .Commercial ↔ height ≤ 10 ∧ 500 < area) ∧
    (building_infer_kind area height = .House ↔ height ≤ 10 ∧ area ≤ 500) ∧
    building_infer_kind area height ≠ .Industrial ∧
    building_infer_kind area height ≠ .Parking ∧
    building_infer_kind area height ≠ .School ∧
    building_infer_kind area height ≠ .Hospital ∧
    (bumpHeight (building_infer_kind area height) height ≠ height →
      building_infer_kind area height = .Commercial) := by
  unfold building_infer_kind
  split_ifs with h1 h2
  · exact ⟨Or.inr (Or.inl rfl),
      iff_of_true rfl h1,
      iff_of_false (by simp) (by rintro ⟨ha, _⟩; linarith),
      iff_of_false (by simp) (by rintro ⟨ha, _⟩; linarith),
      by simp, by simp, by simp, by simp,
      fun hb => absurd rfl hb⟩
  · exact ⟨Or.inr (Or.inr rfl),
      iff_of_false (by simp) h1,
      iff_of_true rfl ⟨not_lt.mp h1, h2⟩,
      iff_of_false (by simp) (by rintro ⟨_, ha⟩; linarith),
      by simp, by simp, by simp, by simp,
      fun _ => rfl⟩
  · exact ⟨Or.inl rfl,
      iff_of_false (by simp) h1,
      iff_of_false (by simp) (by rintro ⟨_, ha⟩; exact h2 ha),
      iff_of_true rfl ⟨not_lt.mp h1, not_lt.mp h2⟩,
      by simp, by simp, by simp, by simp,
      fun hb => absurd rfl hb⟩

/-- Claim C10, witness: a concrete instantiation of the kind classification. -/
theorem infer_kind_range_inst :
    building_infer_kind 600 3 = .Commercial ∧ (building_infer_kind 600 3).toByte = 2 :=
  ⟨(infer_kind_range 600 3).2.2.1.mpr (by norm_num), by decide⟩

/-- Claim C7, counterexample: a building with no `height` tag, a parseable
`building:levels` tag of 1 and a bounding-box area of 600 resolves to
height 3, is classified Commercial, and is therefore written with height 6
— not the claimed `levels * 3.0 = 3`. -/
theorem encoded_height_floor_cex :
    toyParse tagOne = some 1 ∧
    encoded_building_height toyParse none (some tagOne) 600 ≠ 1 * 3 ∧
    encoded_building_height toyParse none (some tagOne) 600 = 6 := by
  have hp : toyParse tagOne = some 1 := by simp [toyParse]
  have hh : building_height toyParse none (some tagOne) = 3 := by
    unfold building_height
    simp [hp]
  have he : encoded_building_height toyParse none (some tagOne) 600 = 6 := by
    unfold encoded_building_height building_infer_kind
    rw [hh]
    norm_num [bumpHeight]
  exact ⟨hp, by rw [he]; norm_num, he⟩

/-- Claim C7, amended: the resolved height is the parsed `height` tag when
present and parseable, else the parsed `building:levels` value times 3.0,
else the default 3.0, with an unparseable value falling through to the next
alternative; the height actually encoded additionally is raised to at least
6.0 exactly when the inferred kind is Commercial (the Industrial arm of the
floor is unreachable). -/
theorem building_height_resolution (parse : String → Option ℚ)
    (hT lT : Option String) (area : ℚ) :
    (∀ s h, hT = some s → parse s = some h → building_height parse hT lT = h) ∧
    (hT.bind parse = none → ∀ s l, lT = some s → parse s = some l →
      building_height parse hT lT = l * 3) ∧
    (hT.bind parse = none → lT.bind parse = none →
      building_height parse hT lT = 3) ∧
    (encoded_building_height parse hT lT area =
      if building_infer_kind area (building_height parse hT lT) = .Commercial
      then max (building_height parse hT lT) 6
      else building_height parse hT lT) := by
  refine ⟨?_, ?_, ?_, ?_⟩
  · intro s h hs hp
    subst hs
    unfold building_height
    simp [hp]
  · intro hb s l hs hp
    subst hs
    unfold building_height
    rw [hb]
    simp [hp]
  · intro hb lb
    unfold building_height
    rw [hb, lb]
  · show bumpHeight (building_infer_kind area (building_height parse hT lT))
        (building_height parse hT lT) = _
    rcases infer_kind_cases area (building_height parse hT lT) with h | h | h <;>
      rw [h] <;> simp [bumpHeight]

/-- Claim C7, witness: the three resolution alternatives at a concrete
parser — parseable `height` tag wins, else `levels * 3`, else 3. -/
theorem building_height_resolution_inst :
    building_height toyParse (some tagTwelve) (some tagOne) = 12 ∧
    building_height toyParse none (some tagOne) = 1 * 3 ∧
    building_height toyParse none none = 3 :=
  ⟨(building_height_resolution toyParse (some tagTwelve) (some tagOne) 0).1
      tagTwelve 12 rfl (by decide),
   (building_height_resolution toyParse none (some tagOne) 0).2.1
      (by decide) tagOne 1 rfl (by decide),
   (building_height_resolution toyParse none none 0).2.2.1 (by decide) (by decide)⟩

/-- Claim C3: the terrain mesher rejects (fatally, modeled as `none`) any
post-decimation mesh whose vertex or face count reaches 65,536 — in fact it
already rejects at 60,000 — and every buffer it does return comes from a
mesh with both counts strictly below 65,536, so 16-bit indices suffice. -/
theorem terrain_count_guard (vs : List ((ℚ × ℚ × ℚ) × (ℚ × ℚ × ℚ)))
    (fs : List (ℕ × ℕ × ℕ)) :
    ((65536 ≤ vs.length ∨ 65536 ≤ fs.length) → encodeTerrain vs fs = none) ∧
    (∀ out, encodeTerrain vs fs = some out →
      vs.length < 65536 ∧ fs.length < 65536) := by
  constructor
  · intro h
    unfold encodeTerrain
    rw [if_neg (by omega)]
  · intro out h
    unfold encodeTerrain at h
    by_cases hc : vs.length < 60000 ∧ fs.length < 60000
    · exact ⟨by omega, by omega⟩
    · rw [if_neg hc] at h
      exact absurd h (by simp)

/-- Claim C3, witness: a 65,536-vertex mesh is rejected, and a small
returned mesh has counts below 65,536. -/
theorem terrain_count_guard_inst :
    encodeTerrain (List.replicate 65536 ((0, 0, 0), (0, 0, 1))) [] = none ∧
    ([(((0 : ℚ), (0 : ℚ), (0 : ℚ)), ((0 : ℚ), (0 : ℚ), (1 : ℚ)))].length < 65536 ∧
      ([] : List (ℕ × ℕ × ℕ)).length < 65536) := by
  constructor
  · exact (terrain_count_guard (List.replicate 65536 ((0, 0, 0), (0, 0, 1))) []).1
      (Or.inl (by rw [List.length_replicate]))
  · obtain ⟨out, hout⟩ :
        ∃ out, encodeTerrain [((0, 0, 0), (0, 0, 1))] [] = some out :=
      ⟨_, by unfold encodeTerrain; rw [if_pos (by norm_num)]⟩
    exact (terrain_count_guard [((0, 0, 0), (0, 0, 1))] []).2 out hout

/-- Claim C1: for a full 512×512 tile the mesh grid is extended to 513×513,
and along the extension the height closure samples the right neighbor's
column 0 (at `x = 512`, `y < 512`), the below neighbor's row 0 (at
`y = 512`, `x < 512`), and the corner neighbor's `(0,0)` (at `(512,512)`);
consequently, for two horizontally adjacent full tiles, the left tile's
extension column agrees with the right tile's column-0 vertices along the
whole shared boundary (all `y ≤ 512`). -/
theorem seam_extension_heights
    (tiles : List Tile) (index : ℕ) (tile nx ny nc : Tile)
    (ht : tiles[index]? = some tile)
    (hw : tile.width = 512) (hh : tile.height = 512)
    (hx : tiles[index + 1]? = some nx)
    (hy : tiles[index + 20]? = some ny)
    (hc : tiles[index + 21]? = some nc)
    (hxw : nx.width = 512) (hxh : nx.height = 512) :
    (fixedDim tile.width = 513 ∧ fixedDim tile.height = 513) ∧
    (∀ y, y < 512 →
      meshHeight tile.data tile.width tile.height (neighborsAt tiles index) 512 y
        = some (nx.get 0 y)) ∧
    (∀ x, x < 512 →
      meshHeight tile.data tile.width tile.height (neighborsAt tiles index) x 512
        = some (ny.get x 0)) ∧
    (meshHeight tile.data tile.width tile.height (neighborsAt tiles index) 512 512
      = some (nc.get 0 0)) ∧
    (∀ y, y ≤ 512 →
      meshHeight tile.data tile.width tile.height (neighborsAt tiles index) 512 y
        = meshHeight nx.data nx.width nx.height (neighborsAt tiles (index + 1)) 0 y) := by
  have hgetd : tiles[index]?.getD default = tile := by
    rw [ht]
    rfl
  have hnx : (neighborsAt tiles index).next_x = some nx := by
    simp [neighborsAt, List.getD, hgetd, hw, hx]
  have hny : (neighborsAt tiles index).next_y = some ny := by
    simp [neighborsAt, List.getD, hgetd, hh, hy]
  have hnc : (neighborsAt tiles index).corner = some nc := by
    simp [neighborsAt, List.getD, hgetd, hw, hh, hc]
  have hrx : ∀ y, y < 512 →
      meshHeight tile.data tile.width tile.height (neighborsAt tiles index) 512 y
        = some (nx.get 0 y) := by
    intro y hy512
    unfold meshHeight
    rw [hw, hh, if_neg (by omega), if_pos (by omega), hnx]
    rfl
  have hcorner :
      meshHeight tile.data tile.width tile.height (neighborsAt tiles index) 512 512
        = some (nc.get 0 0) := by
    unfold meshHeight
    rw [hw, if_pos (by omega), hnc]
    rfl
  refine ⟨⟨by rw [hw]; rfl, by rw [hh]; rfl⟩, hrx, ?_, hcorner, ?_⟩
  · intro x hx512
    unfold meshHeight
    rw [hw, hh, if_neg (by omega), if_neg (by omega), if_pos (by omega), hny]
    rfl
  · intro y hy512
    have hgetd2 : tiles[index + 1]?.getD default = nx := by
      rw [hx]
      rfl
    rcases Nat.lt_or_ge y 512 with hlt | hge
    · rw [hrx y hlt]
      unfold meshHeight
      rw [hxw, hxh, if_neg (by omega), if_neg (by omega), if_neg (by omega)]
      unfold Tile.get
      rw [hxw]
    · have hy5 : y = 512 := by omega
      subst hy5
      rw [hcorner]
      have h21 : index + 1 + 20 = index + 21 := by omega
      have hnbRy : (neighborsAt tiles (index + 1)).next_y = some nc := by
        simp [neighborsAt, List.getD, hgetd2, hxh, h21, hc]
      unfold meshHeight
      rw [hxw, hxh, if_neg (by omega), if_neg (by omega), if_pos (by omega), hnbRy]
      rfl

/-- Claim C1, witness: a concrete 22-tile grid of full tiles, with the
extension heights of tile 0 read from its three neighbors and the shared
column agreeing with tile 1. -/
theorem seam_extension_heights_inst :
    meshHeight fullTile.data fullTile.width fullTile.height (neighborsAt tiles22 0) 512 7
      = some (fullTile.get 0 7) ∧
    meshHeight fullTile.data fullTile.width fullTile.height (neighborsAt tiles22 0) 512 512
      = some (fullTile.get 0 0) ∧
    meshHeight fullTile.data fullTile.width fullTile.height (neighborsAt tiles22 0) 512 512
      = meshHeight fullTile.data fullTile.width fullTile.height (neighborsAt tiles22 1) 0 512 :=
  ⟨(seam_extension_heights tiles22 0 fullTile fullTile fullTile fullTile
      (by decide) (by decide) (by decide) (by decide) (by decide) (by decide)
      (by decide) (by decide)).2.1 7 (by decide),
   (seam_extension_heights tiles22 0 fullTile fullTile fullTile fullTile
      (by decide) (by decide) (by decide) (by decide) (by decide) (by decide)
      (by decide) (by decide)).2.2.2.1,
   (seam_extension_heights tiles22 0 fullTile fullTile fullTile fullTile
      (by decide) (by decide) (by decide) (by decide) (by decide) (by decide)
      (by decide) (by decide)).2.2.2.2 512 (by decide)⟩

/-- Claim C2, counterexample: the vertex at `pos.x = 2` (a grid coordinate
reachable in any tile mesh) is encoded with x field 255, whereas
`round(2/512*65535) = round(255.996...) = 256`: the cast truncates, it does
not round. -/
theorem encodeVertex_round_cex :
    (encodeVertex 0 1 (2, 0, 0) (0, 0, 0)).qx = 255 ∧
    (round ((2 : ℚ) / 512 * 65535)).toNat = 256 ∧
    (encodeVertex 0 1 (2, 0, 0) (0, 0, 0)).qx ≠ (round ((2 : ℚ) / 512 * 65535)).toNat := by
  have hq : (2 : ℚ) / 512 * 65535 = 65535 / 256 := by norm_num
  have hf255 : ⌊(65535 : ℚ) / 256⌋ = 255 := by norm_num
  have hf256 : ⌊(65535 : ℚ) / 256 + 1 / 2⌋ = 256 := by norm_num
  have h255 : (encodeVertex 0 1 (2, 0, 0) (0, 0, 0)).qx = 255 := by
    show as_u16 ((2 : ℚ) / 512 * 65535) = 255
    rw [as_u16_in_range (by norm_num) (by norm_num), hq, hf255]
    rfl
  have h256 : (round ((2 : ℚ) / 512 * 65535)).toNat = 256 := by
    rw [hq, round_eq, hf256]
    rfl
  exact ⟨h255, h256, by rw [h255, h256]; norm_num⟩

/-- Claim C2, amended: each `u16` position field is the saturating
truncation (here: the floor, since the quantity is nonnegative and in
range) of `pos.x/512*65535`, `pos.y/512*65535`,
`(pos.z-min_z)/range_z*65535`, and each normal byte is the saturating
truncation toward zero of `component*127` — truncation toward zero, not
`round`.  Stated for in-range inputs (positions within the 512-unit tile
span, unit-length normal components, `range_z > 0`; the `range_z = 0` case
is settled with claim C5). -/
theorem encodeVertex_trunc_fields (minz rangez : ℚ) (p n : ℚ × ℚ × ℚ)
    (hx0 : 0 ≤ p.1) (hx1 : p.1 ≤ 512)
    (hy0 : 0 ≤ p.2.1) (hy1 : p.2.1 ≤ 512)
    (hr : 0 < rangez) (hz0 : minz ≤ p.2.2) (hz1 : p.2.2 ≤ minz + rangez)
    (hn1 : -1 ≤ n.1) (hn1b : n.1 ≤ 1)
    (hn2 : -1 ≤ n.2.1) (hn2b : n.2.1 ≤ 1)
    (hn3 : -1 ≤ n.2.2) (hn3b : n.2.2 ≤ 1) :
    (encodeVertex minz rangez p n).qx = (⌊p.1 / 512 * 65535⌋).toNat ∧
    (encodeVertex minz rangez p n).qy = (⌊p.2.1 / 512 * 65535⌋).toNat ∧
    (encodeVertex minz rangez p n).qz = (⌊(p.2.2 - minz) / rangez * 65535⌋).toNat ∧
    (encodeVertex minz rangez p n).nx = truncQ (n.1 * 127) ∧
    (encodeVertex minz rangez p n).ny = truncQ (n.2.1 * 127) ∧
    (encodeVertex minz rangez p n).nz = truncQ (n.2.2 * 127) := by
  have hpos : ∀ v : ℚ, 0 ≤ v → v ≤ 512 →
      as_u16 (v / 512 * 65535) = (⌊v / 512 * 65535⌋).toNat := by
    intro v h0 h1
    obtain ⟨hu0, hu1⟩ := quant_unit_range (u := v / 512)
      (div_nonneg h0 (by norm_num)) ((div_le_one (by norm_num)).mpr h1)
    exact as_u16_in_range hu0 hu1
  have hnrm : ∀ v : ℚ, -1 ≤ v → v ≤ 1 → as_i8 (v * 127) = truncQ (v * 127) := by
    intro v h0 h1
    apply as_i8_in_range
    · calc (-127 : ℚ) = -1 * 127 := by norm_num
      _ ≤ v * 127 := mul_le_mul_of_nonneg_right h0 (by norm_num)
    · calc v * 127 ≤ 1 * 127 := mul_le_mul_of_nonneg_right h1 (by norm_num)
      _ = 127 := one_mul _
  have hz : quantZ p.2.2 minz rangez = (⌊(p.2.2 - minz) / rangez * 65535⌋).toNat := by
    unfold quantZ
    rw [if_neg hr.ne']
    obtain ⟨hu0, hu1⟩ := quant_unit_range (u := (p.2.2 - minz) / rangez)
      (div_nonneg (by linarith) hr.le) ((div_le_one hr).mpr (by linarith))
    exact as_u16_in_range hu0 hu1
  exact ⟨hpos p.1 hx0 hx1, hpos p.2.1 hy0 hy1, hz,
    hnrm n.1 hn1 hn1b, hnrm n.2.1 hn2 hn2b, hnrm n.2.2 hn3 hn3b⟩

/-- Claim C2, witness: the truncation description of the encoded fields at
a concrete vertex. -/
theorem encodeVertex_trunc_fields_inst :
    (encodeVertex 0 1 (2, 3, 1) ((1 : ℚ) / 2, -1 / 2, 1)).qx = (⌊(2 : ℚ) / 512 * 65535⌋).toNat ∧
    (encodeVertex 0 1 (2, 3, 1) ((1 : ℚ) / 2, -1 / 2, 1)).qy = (⌊(3 : ℚ) / 512 * 65535⌋).toNat ∧
    (encodeVertex 0 1 (2, 3, 1) ((1 : ℚ) / 2, -1 / 2, 1)).qz = (⌊((1 : ℚ) - 0) / 1 * 65535⌋).toNat ∧
    (encodeVertex 0 1 (2, 3, 1) ((1 : ℚ) / 2, -1 / 2, 1)).nx = truncQ ((1 : ℚ) / 2 * 127) ∧
    (encodeVertex 0 1 (2, 3, 1) ((1 : ℚ) / 2, -1 / 2, 1)).ny = truncQ ((-1 : ℚ) / 2 * 127) ∧
    (encodeVertex 0 1 (2, 3, 1) ((1 : ℚ) / 2, -1 / 2, 1)).nz = truncQ ((1 : ℚ) * 127) :=
  encodeVertex_trunc_fields 0 1 (2, 3, 1) ((1 : ℚ) / 2, -1 / 2, 1)
    (by norm_num) (by norm_num) (by norm_num) (by norm_num) (by norm_num)
    (by norm_num) (by norm_num) (by norm_num) (by norm_num) (by norm_num)
    (by norm_num) (by norm_num) (by norm_num)

/-- Claim C5: when every vertex of the (post-decimation) mesh has the same
elevation `c` — as for a tile of uniform elevation — the encoded header has
`min_z = c` and `range_z = 0`, and every encoded vertex's z field is
exactly 0: the `0.0/0.0 = NaN` produced by the unguarded division is cast
to 0 by the saturating `as u16` conversion, so no NaN/Inf reaches the
quantized output. -/
theorem uniform_mesh_zero_range (vs : List ((ℚ × ℚ × ℚ) × (ℚ × ℚ × ℚ)))
    (fs : List (ℕ × ℕ × ℕ)) (c : ℚ)
    (hne : vs ≠ []) (hall : ∀ v ∈ vs, v.1.2.2 = c)
    (hv : vs.length < 60000) (hf : fs.length < 60000) :
    ∃ out, encodeTerrain vs fs = some out ∧
      out.min_z = c ∧ out.range_z = 0 ∧ ∀ ev ∈ out.verts, ev.qz = 0 := by
  have hzs : ∀ z ∈ vs.map (fun v => v.1.2.2), z = c := by
    intro z hz
    rcases List.mem_map.mp hz with ⟨v, hv2, rfl⟩
    exact hall v hv2
  have hzne : vs.map (fun v => v.1.2.2) ≠ [] := by
    simpa using hne
  have hmin : minZ (vs.map fun v => v.1.2.2) = c := minZ_all hzne hzs
  have hrz : rangeZ (vs.map fun v => v.1.2.2) = 0 := by
    unfold rangeZ
    rw [hmin, maxZ_all hzne hzs, sub_self]
  refine ⟨{ min_z := c, range_z := 0, vertex_count := vs.length,
            verts := vs.map (fun v => encodeVertex c 0 v.1 v.2),
            faces := fs.map (fun f => (f.2.1, f.1, f.2.2)) }, ?_, rfl, rfl, ?_⟩
  · unfold encodeTerrain
    rw [if_pos ⟨hv, hf⟩]
    simp only [hmin, hrz]
  · intro ev hev
    rcases List.mem_map.mp hev with ⟨v, hv2, rfl⟩
    show quantZ v.1.2.2 c 0 = 0
    rw [hall v hv2]
    unfold quantZ
    rw [if_pos rfl, if_pos rfl]

/-- Claim C5, witness: a two-vertex uniform mesh at elevation 5 encodes
with `range_z = 0` and all z fields 0. -/
theorem uniform_mesh_zero_range_inst :
    ∃ out,
      encodeTerrain [(((0 : ℚ), (0 : ℚ), (5 : ℚ)), ((0 : ℚ), (0 : ℚ), (1 : ℚ))),
        ((1, 0, 5), (0, 0, 1))] [] = some out ∧
      out.min_z = 5 ∧ out.range_z = 0 ∧ ∀ ev ∈ out.verts, ev.qz = 0 :=
  uniform_mesh_zero_range _ _ 5 (by simp)
    (by
      intro v hv
      simp only [List.mem_cons, List.not_mem_nil, or_false] at hv
      rcases hv with rfl | rfl <;> norm_num)
    (by norm_num) (by norm_num)

/-- Claim C6, counterexample: at a 90-degree bend the claimed multiplier
`1/cos(min(angle, 90°)/2) = 1/cos(π/4)` differs from what the code
computes, because the code clamps the angle at the literal `1.57` radians
(≈ 89.954°), not at `π/2`. -/
theorem width_mul_clamp_cex :
    widthMulAt bendPath 1 ≠
      1 / Real.cos (min (vangle ((1 : ℝ), (0 : ℝ)) (0, 1)) (Real.pi / 2) / 2) := by
  rw [widthMul_bend, vangle_ex_ey, min_self]
  have hpi1 := Real.pi_gt_3141592
  have hpi2 := Real.pi_lt_3141593
  have h0785 : (1.57 : ℝ) / 2 < Real.pi / 2 / 2 := by linarith
  have hcoslt : Real.cos (Real.pi / 2 / 2) < Real.cos (1.57 / 2) :=
    Real.strictAntiOn_cos ⟨by norm_num, by linarith⟩ ⟨by linarith, by linarith⟩ h0785
  have hcospos : 0 < Real.cos (Real.pi / 2 / 2) :=
    Real.cos_pos_of_mem_Ioo ⟨by linarith, by linarith⟩
  intro h
  rw [one_div, one_div] at h
  have heq := inv_injective h
  linarith [heq]

/-- Claim C6, amended: at endpoint nodes (no previous or no next node) the
width multiplier is exactly 1; at interior nodes it is
`1/cos(min(angle, 1.57)/2)` where `angle` is the angle between the incoming
and outgoing unit directions and the clamp constant is the literal 1.57
radians (≈ 89.95°), not exactly 90°; at a 90-degree bend this gives
`1/cos(0.785)` ≈ 1.4141 (still ≈ 1.414). -/
theorem width_mul_rule (p : List (ℝ × ℝ)) (i : ℕ) :
    (i = 0 ∨ p.length ≤ i + 1 → widthMulAt p i = 1) ∧
    (0 < i → i + 1 < p.length →
      widthMulAt p i = 1 / Real.cos (min
        (vangle (normalize2 (vsub (p.getD i (0, 0)) (p.getD (i - 1) (0, 0))))
          (normalize2 (vsub (p.getD (i + 1) (0, 0)) (p.getD i (0, 0))))) 1.57 / 2)) ∧
    widthMulAt bendPath 1 = 1 / Real.cos (1.57 / 2) := by
  refine ⟨?_, ?_, widthMul_bend⟩
  · intro h
    rcases h with h0 | hlen
    · subst h0
      have h1 : dir1At p 0 = none := by
        unfold dir1At
        rw [if_neg (by omega)]
      unfold widthMulAt
      rw [h1]
    · have h2 : dir2At p i = none := by
        unfold dir2At
        rw [if_neg (by omega)]
      unfold widthMulAt
      rw [h2]
      cases hdd : dir1At p i <;> rfl
  · intro h0 hlen
    have h1 : dir1At p i =
        some (normalize2 (vsub (p.getD i (0, 0)) (p.getD (i - 1) (0, 0)))) := by
      unfold dir1At
      rw [if_pos h0]
    have h2 : dir2At p i =
        some (normalize2 (vsub (p.getD (i + 1) (0, 0)) (p.getD i (0, 0)))) := by
      unfold dir2At
      rw [if_pos hlen]
    unfold widthMulAt
    rw [h1, h2]

/-- Claim C6, witness: both endpoints of the bend path get multiplier
exactly 1, and its interior node gets the clamped-angle formula. -/
theorem width_mul_rule_inst :
    widthMulAt bendPath 0 = 1 ∧
    widthMulAt bendPath 2 = 1 ∧
    widthMulAt bendPath 1 = 1 / Real.cos (min
      (vangle (normalize2 (vsub (bendPath.getD 1 (0, 0)) (bendPath.getD 0 (0, 0))))
        (normalize2 (vsub (bendPath.getD 2 (0, 0)) (bendPath.getD 1 (0, 0))))) 1.57 / 2) :=
  ⟨(width_mul_rule bendPath 0).1 (Or.inl rfl),
   (width_mul_rule bendPath 2).1 (Or.inr (by norm_num [bendPath])),
   (width_mul_rule bendPath 1).2.1 (by norm_num) (by norm_num [bendPath])⟩

/-- Claim C8: for any (finite) input pair, the unconditional clamp into
`[0.01, 10012 - 0.01]` forces both derived chunk coordinates into `[0, 20)`,
so the `panic!("bad coord")` branch is unreachable; and for a well-formed
region (400 tiles with the decoder's chunk dimensions) the subsequent
tile-buffer index is in bounds, so `get_elevation` returns a sample and
never panics. -/
theorem get_elevation_safe (r : Region) (x y : ℚ) (hr : regionWF r) :
    (0 ≤ chunkCoord x ∧ chunkCoord x < 20 ∧ 0 ≤ chunkCoord y ∧ chunkCoord y < 20) ∧
    (r.get_elevation x y).isSome := by
  obtain ⟨hx0, hx20⟩ := chunkCoord_bounds x
  obtain ⟨hy0, hy20⟩ := chunkCoord_bounds y
  refine ⟨⟨hx0, hx20, hy0, hy20⟩, ?_⟩
  simp only [Region.get_elevation]
  rw [if_neg (by omega)]
  have hidx : (chunkCoord y * 20 + chunkCoord x).toNat =
      (chunkCoord y).toNat * 20 + (chunkCoord x).toNat := by
    omega
  rw [hidx]
  set a := (chunkCoord x).toNat with ha
  set b := (chunkCoord y).toNat with hb
  have ha20 : a < 20 := by omega
  have hb20 : b < 20 := by omega
  have hlen : b * 20 + a < r.tiles.length := by
    rw [hr.1]
    omega
  rw [List.getElem?_eq_getElem hlen]
  simp only [Option.some_bind]
  obtain ⟨hw, hh, hd⟩ := hr.2 (b * 20 + a) hlen
  have hmod : (b * 20 + a) % 20 = a := by omega
  have hdiv : (b * 20 + a) / 20 = b := by omega
  rw [hmod] at hw
  rw [hdiv] at hh
  have hxx : localCoord x < tileDim a := by
    have h := localCoord_lt x
    rwa [← ha] at h
  have hyy : localCoord y < tileDim b := by
    have h := localCoord_lt y
    rwa [← hb] at h
  have hindex : (r.tiles[b * 20 + a]).width * localCoord y + localCoord x <
      (r.tiles[b * 20 + a]).data.length := by
    rw [hd, hw, hh]
    calc tileDim a * localCoord y + localCoord x
        < tileDim a * localCoord y + tileDim a := by omega
      _ = tileDim a * (localCoord y + 1) := by ring
      _ ≤ tileDim a * tileDim b := Nat.mul_le_mul_left _ (by omega)
  rw [List.getElem?_eq_getElem hindex]
  rfl

/-- Claim C8, witness: a concrete well-formed 400-tile region on which a
lookup succeeds. -/
theorem get_elevation_safe_inst :
    regionWF sampleRegion ∧ (sampleRegion.get_elevation 1000 9999).isSome := by
  have hwf : regionWF sampleRegion := by
    constructor
    · simp [sampleRegion]
    · intro i h
      simp [sampleRegion, sampleTile]
  exact ⟨hwf, (get_elevation_safe sampleRegion 1000 9999 hwf).2⟩

/-- Claim C9: the (spec-modelled) server-mode Elevation Cache never exceeds
11 entries; starting empty and querying 12 distinct chunk indices evicts
exactly the least-recently-touched one (chunk 0), and a subsequent hit on a
resident entry moves it to the most-recently-used (back) position. -/
theorem cache_lru_spec :
    (∀ c k, c.length ≤ 11 → (cacheTouch c k).length ≤ 11) ∧
    cacheRun (List.range 12) = [1, 2, 3, 4, 5, 6, 7, 8, 9, 10, 11] ∧
    (0 ∈ cacheRun (List.range 11) ∧ 0 ∉ cacheRun (List.range 12)) ∧
    cacheTouch [1, 2, 3, 4, 5, 6, 7, 8, 9, 10, 11] 5 = [1, 2, 3, 4, 6, 7, 8, 9, 10, 11, 5] := by
  refine ⟨?_, by decide, by decide, by decide⟩
  intro c k hc
  unfold cacheTouch
  split_ifs with h1 h2
  · have := List.length_erase_of_mem h1
    have hpos : 0 < c.length := List.length_pos.mpr (by rintro rfl; simp at h1)
    simp only [List.length_append, List.length_singleton, this]
    omega
  · simp only [List.length_append, List.length_singleton]
    omega
  · simp only [List.length_append, List.length_singleton, List.length_drop]
    omega

/-- Claim C9, witness: touching an empty cache stays within capacity. -/
theorem cache_lru_spec_inst : (cacheTouch [] 0).length ≤ 11 :=
  cache_lru_spec.1 [] 0 (by decide)

end Cartographer
